import Mathlib

/-!
Verification of the statistics-aggregation core of `src/analyze.py`
(fbmsg-analyzer).  The Python program folds a conversation's message
events into per-participant counters (all-time plus per-interval) and
then converts cumulative message lengths into averages.  The embedding
below translates the data model and the fold from the source; Python
dicts become insertion-ordered association lists, the fallible dict
lookups (`KeyError`) and the division (`ZeroDivisionError`) become
`Option`, and the float division of the averaging pass is modelled as
exact rational division.
-/

namespace FBMsg

/-- The eight counters of `_create_stats` / `DATA_COLLECTED`
(src/analyze.py:26-33).  `avg_msg_len` holds a cumulative sum of
message lengths during the fold and is divided once at the end, so it
is modelled as a rational. -/
structure Stats where
  msgs_sent : Nat
  avg_msg_len : Rat
  photos_sent : Nat
  vids_sent : Nat
  links_sent : Nat
  gifs_sent : Nat
  emojis_sent : Nat
  reactions : Nat
deriving DecidableEq

/-- `_create_stats()` (src/analyze.py:104-108): all counters zero. -/
def _create_stats : Stats :=
  { msgs_sent := 0, avg_msg_len := 0, photos_sent := 0, vids_sent := 0,
    links_sent := 0, gifs_sent := 0, emojis_sent := 0, reactions := 0 }

/-- The interval mode, `args.interval ∈ INTERVALS` (src/analyze.py:35). -/
inductive Interval where
  | hourly
  | monthly
  | yearly
deriving DecidableEq

/-- An interval key: an integer hour in hourly mode, a formatted string
in monthly and yearly modes (src/analyze.py:200-210). -/
inductive IntervalKey where
  | hour (h : Nat)
  | text (s : String)
deriving DecidableEq

/-- The calendar timestamp attached to each message before analysis
(src/analyze.py:287-291); only `hour`, `month` and `year` are read by
`get_correct_interval`.  Python's `datetime` guarantees
`0 ≤ hour ≤ 23` and `1 ≤ month ≤ 12`; those facts enter the theorems
as hypotheses. -/
structure Timestamp where
  year : Nat
  month : Nat
  hour : Nat
deriving DecidableEq

/-- A photo-like attachment: only its `uri` is read (src/analyze.py:132-136). -/
structure Photo where
  uri : String
deriving DecidableEq

/-- A video attachment: only the length of the list is read
(src/analyze.py:250-251). -/
structure Video where
  uri : String
deriving DecidableEq

/-- A reaction: only its `actor` is read (src/analyze.py:268-269). -/
structure Reaction where
  actor : String
deriving DecidableEq

/-- One message event.  Missing lists are identified with empty lists
(`msg.get(k, [])` and Python truthiness make the two
indistinguishable to the analyzer); `share` records the truthiness of
the optional share payload. -/
structure Msg where
  sender_name : String
  content : Option String
  photos : List Photo
  gifs : List Photo
  videos : List Video
  reactions : List Reaction
  share : Bool
  timestamp : Timestamp
deriving DecidableEq

/-- Per-participant state: the all-time counters plus the
insertion-ordered mapping from interval key to counters
(`stats[name]` and `stats[name]['int']`, src/analyze.py:110-121). -/
structure ParticipantStats where
  general : Stats
  int : List (IntervalKey × Stats)
deriving DecidableEq

abbrev Parts := List (String × ParticipantStats)

/-- The whole table: `stats` maps participant names to their records and
`stats['intervals']` lists the distinct interval keys in encounter
order (src/analyze.py:294-295). -/
structure StatsTable where
  participants : Parts
  intervals : List IntervalKey
deriving DecidableEq

/-- Association-list lookup, modelling a Python dict read. -/
def lookupA {κ α : Type} [DecidableEq κ] : List (κ × α) → κ → Option α
  | [], _ => none
  | e :: rest, k => if e.1 = k then some e.2 else lookupA rest k

/-- Update the first entry with the given key, if present; modelling an
in-place mutation of an existing dict entry. -/
def updateA {κ α : Type} [DecidableEq κ] : List (κ × α) → κ → (α → α) → List (κ × α)
  | [], _, _ => []
  | e :: rest, k, f => if e.1 = k then (e.1, f e.2) :: rest else e :: updateA rest k f

/-- Read-modify-write of an existing dict entry; `none` models the
`KeyError` Python raises when the key is absent. -/
def modifyA {κ α : Type} [DecidableEq κ] (m : List (κ × α)) (k : κ) (f : α → α) :
    Option (List (κ × α)) :=
  if (lookupA m k).isSome then some (updateA m k f) else none

/-- `create_stats(args)` (src/analyze.py:110-121): zero counters, and in
hourly mode the interval map is pre-populated with hours 0..23. -/
def create_stats (mode : Interval) : ParticipantStats :=
  { general := _create_stats,
    int :=
      match mode with
      | .hourly => (List.range 24).map (fun hr => (IntervalKey.hour hr, _create_stats))
      | .monthly => []
      | .yearly => [] }

/-- Count of non-overlapping occurrences of the two-character marker
`\u` in a character list, modelling `s.count('\\u')`
(src/analyze.py:127). -/
def countMarker : List Char → Nat
  | '\\' :: 'u' :: rest => 1 + countMarker rest
  | _ :: rest => countMarker rest
  | [] => 0

/-- `count_emoji(s)` (src/analyze.py:123-130): the marker count divided
by 4 plus a fold that counts characters belonging to the emoji table.
The external `UNICODE_EMOJI` table is the membership predicate
`isEmoji`. -/
def count_emoji (isEmoji : Char → Bool) (s : List Char) : Nat :=
  countMarker s / 4 + s.foldl (fun a c => a + (if isEmoji c then 1 else 0)) 0

/-- Scan for the substring `.gif` anywhere in a character list,
modelling Python's `'.gif' in p['uri']`. -/
def containsGif : List Char → Bool
  | '.' :: 'g' :: 'i' :: 'f' :: _ => true
  | _ :: rest => containsGif rest
  | [] => false

/-- `is_gif(p)` (src/analyze.py:132-136): substring containment test. -/
def is_gif (p : Photo) : Bool := containsGif p.uri.data

/-- `get_correct_interval(stamp, args)` (src/analyze.py:200-210). -/
def pad2 (n : Nat) : String := if n < 10 then "0" ++ toString n else toString n

def get_correct_interval (stamp : Timestamp) (mode : Interval) : IntervalKey :=
  match mode with
  | .hourly => .hour stamp.hour
  | .monthly => .text (toString stamp.year ++ "-" ++ pad2 stamp.month)
  | .yearly => .text (toString stamp.year)

/-- Truthiness of `msg.get('content')` (src/analyze.py:309): the event
carries a non-empty text content. -/
def hasContent (m : Msg) : Bool := !(m.content.getD "").isEmpty

/-- Bump the all-time counters and the counters of the given interval by
the same per-`Stats` update, as every handler does. -/
def bumpBoth (k : IntervalKey) (f : Stats → Stats) (p : ParticipantStats) : ParticipantStats :=
  { general := f p.general, int := updateA p.int k f }

/-- The per-`Stats` increments of `handle_content` (src/analyze.py:219-224). -/
def contentBump (len emojis : Nat) (s : Stats) : Stats :=
  { s with msgs_sent := s.msgs_sent + 1,
           avg_msg_len := s.avg_msg_len + (len : Rat),
           emojis_sent := s.emojis_sent + emojis }

/-- `handle_content(stats, interval, msg)` (src/analyze.py:212-224). -/
def handle_content (isEmoji : Char → Bool) (interval : IntervalKey) (msg : Msg)
    (stats : Parts) : Option Parts :=
  modifyA stats msg.sender_name
    (bumpBoth interval
      (contentBump (msg.content.getD "").length (count_emoji isEmoji (msg.content.getD "").data)))

/-- The classification loop of `handle_photos_and_gifs`
(src/analyze.py:231-237): returns `(photos, gifs)`. -/
def gifCount (ps : List Photo) : Nat × Nat :=
  ps.foldl (fun acc p => if is_gif p then (acc.1, acc.2 + 1) else (acc.1 + 1, acc.2)) (0, 0)

def photoBump (photos gifs : Nat) (s : Stats) : Stats :=
  { s with photos_sent := s.photos_sent + photos, gifs_sent := s.gifs_sent + gifs }

/-- `handle_photos_and_gifs(stats, interval, msg)` (src/analyze.py:226-242). -/
def handle_photos_and_gifs (interval : IntervalKey) (msg : Msg) (stats : Parts) :
    Option Parts :=
  modifyA stats msg.sender_name
    (bumpBoth interval
      (photoBump (gifCount (msg.photos ++ msg.gifs)).1 (gifCount (msg.photos ++ msg.gifs)).2))

def videoBump (n : Nat) (s : Stats) : Stats := { s with vids_sent := s.vids_sent + n }

/-- `handle_videos(stats, interval, msg)` (src/analyze.py:244-251). -/
def handle_videos (interval : IntervalKey) (msg : Msg) (stats : Parts) : Option Parts :=
  modifyA stats msg.sender_name (bumpBoth interval (videoBump msg.videos.length))

def linkBump (s : Stats) : Stats := { s with links_sent := s.links_sent + 1 }

/-- `handle_links(stats, interval, msg)` (src/analyze.py:253-260). -/
def handle_links (interval : IntervalKey) (msg : Msg) (stats : Parts) : Option Parts :=
  modifyA stats msg.sender_name (bumpBoth interval linkBump)

/-- Lazily create a zeroed record for the interval, as
`if interval not in ...: ... = _create_stats()` does
(src/analyze.py:271-273 and 305-307); a fresh dict key is appended at
the end. -/
def ensureInterval (k : IntervalKey) (p : ParticipantStats) : ParticipantStats :=
  if (lookupA p.int k).isSome then p else { p with int := p.int ++ [(k, _create_stats)] }

def reactionBump (s : Stats) : Stats := { s with reactions := s.reactions + 1 }

/-- The per-actor step of `handle_reactions` (src/analyze.py:268-276):
ensure the actor's entry for the interval, then increment the
reaction counters all-time and for the interval. -/
def reactionUpd (k : IntervalKey) (p : ParticipantStats) : ParticipantStats :=
  bumpBoth k reactionBump (ensureInterval k p)

/-- The loop of `handle_reactions` over the reaction list; `none`
models the `KeyError` on an actor absent from the table. -/
def foldActs (k : IntervalKey) (rs : List Reaction) (st : Parts) : Option Parts :=
  match rs with
  | [] => some st
  | r :: rest =>
    match modifyA st r.actor (reactionUpd k) with
    | none => none
    | some st2 => foldActs k rest st2

/-- `handle_reactions(stats, interval, msg)` (src/analyze.py:262-276). -/
def handle_reactions (interval : IntervalKey) (msg : Msg) (stats : Parts) : Option Parts :=
  foldActs interval msg.reactions stats

/-- One iteration of the fold loop of `analyze` (src/analyze.py:297-318):
record the interval, ensure the sender's entry for it (a `KeyError`
when the sender is unknown), then run the guarded handlers. -/
def foldStep (isEmoji : Char → Bool) (mode : Interval) (table : StatsTable) (msg : Msg) :
    Option StatsTable :=
  let interval := get_correct_interval msg.timestamp mode
  let intervals :=
    if interval ∈ table.intervals then table.intervals else table.intervals ++ [interval]
  (modifyA table.participants msg.sender_name (ensureInterval interval)).bind (fun parts1 =>
  (if hasContent msg then handle_content isEmoji interval msg parts1 else some parts1).bind
    (fun parts2 =>
  (if !msg.photos.isEmpty || !msg.gifs.isEmpty then
      handle_photos_and_gifs interval msg parts2 else some parts2).bind (fun parts3 =>
  (if !msg.videos.isEmpty then handle_videos interval msg parts3 else some parts3).bind
    (fun parts4 =>
  (if !msg.reactions.isEmpty then handle_reactions interval msg parts4 else some parts4).bind
    (fun parts5 =>
  (if msg.share then handle_links interval msg parts5 else some parts5).bind (fun parts6 =>
  some { participants := parts6, intervals := intervals }))))))

/-- The fold loop of `analyze` over the message list. -/
def foldMessages (isEmoji : Char → Bool) (mode : Interval) (table : StatsTable) :
    List Msg → Option StatsTable
  | [] => some table
  | m :: rest =>
    match foldStep isEmoji mode table m with
    | none => none
    | some t2 => foldMessages isEmoji mode t2 rest

/-- `stats = {p['name']: create_stats(args) ...}; stats['intervals'] = []`
(src/analyze.py:294-295). -/
def initStats (mode : Interval) (names : List String) : StatsTable :=
  { participants := names.map (fun n => (n, create_stats mode)), intervals := [] }

/-- The guarded interval-level averaging (src/analyze.py:326-328):
divide only when the interval's own `msgs_sent` is positive. -/
def normalizeInt (s : Stats) : Stats :=
  if s.msgs_sent > 0 then { s with avg_msg_len := s.avg_msg_len / (s.msgs_sent : Rat) } else s

/-- The success path of the per-participant averaging pass
(src/analyze.py:325-328). -/
def normalizeP (p : ParticipantStats) : ParticipantStats :=
  { general := { p.general with
      avg_msg_len := p.general.avg_msg_len / (p.general.msgs_sent : Rat) },
    int := p.int.map (fun e => (e.1, normalizeInt e.2)) }

/-- The per-participant averaging pass.  Line 325 of the source divides
`avg_msg_len` by `msgs_sent` with no guard, so `msgs_sent = 0` raises
`ZeroDivisionError`; `none` models that fault. -/
def normalizeParticipant (p : ParticipantStats) : Option ParticipantStats :=
  if p.general.msgs_sent = 0 then none else some (normalizeP p)

/-- The averaging loop over all participants (src/analyze.py:321-328). -/
def normalizeParts : Parts → Option Parts
  | [] => some []
  | e :: rest =>
    match normalizeParticipant e.2 with
    | none => none
    | some p2 =>
      match normalizeParts rest with
      | none => none
      | some rest2 => some ((e.1, p2) :: rest2)

def normalizeTable (t : StatsTable) : Option StatsTable :=
  (normalizeParts t.participants).map
    (fun ps => { participants := ps, intervals := t.intervals })

/-- The statistics pipeline of `analyze` (src/analyze.py:278-330) minus
file loading and printing: initialise, fold every message, then
average. -/
def analyze (isEmoji : Char → Bool) (mode : Interval) (names : List String)
    (msgs : List Msg) : Option StatsTable :=
  (foldMessages isEmoji mode (initStats mode names) msgs).bind normalizeTable

/-- The display order of interval keys in `print_interval_stats`
(src/analyze.py:170-179): `range(24)` in hourly mode, the
`stats['intervals']` list in monthly and yearly modes. -/
def displayIntervals (mode : Interval) (t : StatsTable) : List IntervalKey :=
  match mode with
  | .hourly => (List.range 24).map IntervalKey.hour
  | .monthly => t.intervals
  | .yearly => t.intervals

/-- Modelled from the spec: "test whether its resource locator ends in a
GIF file extension".  The code has no such test; this definition only
serves to compare the spec's wording with `is_gif`. -/
def endsWithGifExt (s : String) : Bool :=
  match s.data.reverse with
  | 'f' :: 'i' :: 'g' :: '.' :: _ => true
  | _ => false

/-- Strict lexicographic order on character lists (by code point). -/
def charListLt : List Char → List Char → Bool
  | [], [] => false
  | [], _ :: _ => true
  | _ :: _, [] => false
  | a :: as, b :: bs =>
    if a.toNat < b.toNat then true
    else if b.toNat < a.toNat then false
    else charListLt as bs

/-- Modelled from the spec: the total order required for display,
numeric on hour keys and lexicographic on string keys. -/
def keyLeB : IntervalKey → IntervalKey → Bool
  | .hour a, .hour b => decide (a ≤ b)
  | .text a, .text b => !charListLt b.data a.data
  | .hour _, .text _ => true
  | .text _, .hour _ => false

/-- A list of keys is in ascending display order. -/
def keysAscending : List IntervalKey → Bool
  | [] => true
  | [_] => true
  | a :: b :: rest => keyLeB a b && keysAscending (b :: rest)

/-- First-occurrence accumulation of interval keys, exactly the update
the fold loop applies to `stats['intervals']` (src/analyze.py:302-304). -/
def firstOccur (acc : List IntervalKey) : List IntervalKey → List IntervalKey
  | [] => acc
  | k :: ks => firstOccur (if k ∈ acc then acc else acc ++ [k]) ks

/-- Sum of a numeric projection over the values of an association list. -/
def sumBy {κ α : Type} (g : α → Nat) (m : List (κ × α)) : Nat :=
  (m.map (fun e => g e.2)).sum

/-- `sum(get_property(stats, 'msgs_sent'))`: the total of all-time
messages sent over all participants. -/
def totalMsgsSent (parts : Parts) : Nat := sumBy (fun p => p.general.msgs_sent) parts

/-- A participant's all-time reactions-received counter, 0 when the name
is absent. -/
def reactionsOf (parts : Parts) (name : String) : Nat :=
  ((lookupA parts name).map (fun p => p.general.reactions)).getD 0

/-- A participant's reactions-received counter for one interval, 0 when
the name or the interval entry is absent. -/
def intReactionsOf (parts : Parts) (name : String) (k : IntervalKey) : Nat :=
  (((lookupA parts name).bind (fun p => lookupA p.int k)).map (fun s => s.reactions)).getD 0

/-- A participant's all-time messages-sent counter, 0 when absent. -/
def msgsOf (parts : Parts) (name : String) : Nat :=
  ((lookupA parts name).map (fun p => p.general.msgs_sent)).getD 0

/-- A participant's all-time cumulative message-length field, 0 when
absent. -/
def lenOf (parts : Parts) (name : String) : Rat :=
  ((lookupA parts name).map (fun p => p.general.avg_msg_len)).getD 0

/-- Every participant record of the table satisfies `Inv`. -/
def invAllP (Inv : ParticipantStats → Prop) (parts : Parts) : Prop :=
  ∀ name p, lookupA parts name = some p → Inv p

/-- P1: a participant's all-time messages-sent equals the sum of the
interval-scoped messages-sent over the interval mapping. -/
def msgsSumInv (parts : Parts) : Prop :=
  invAllP (fun p => p.general.msgs_sent = sumBy (fun s => s.msgs_sent) p.int) parts

/-- Number of events of the list sent by `name` that carry text content. -/
def senderTextCount (msgs : List Msg) (name : String) : Nat :=
  msgs.countP (fun m => m.sender_name == name && hasContent m)

/-- Total length of the text contents sent by `name` over the list. -/
def senderLenSum (msgs : List Msg) (name : String) : Nat :=
  (msgs.map (fun m =>
    if m.sender_name == name && hasContent m then (m.content.getD "").length else 0)).sum

/-- A trivial emoji table used for concrete evaluations. -/
def noEmoji : Char → Bool := fun _ => false

def pDefault : ParticipantStats := { general := _create_stats, int := [] }

def tsHour14 : Timestamp := { year := 2019, month := 5, hour := 14 }

def tsApr2018 : Timestamp := { year := 2018, month := 4, hour := 9 }

def msgHi : Msg :=
  { sender_name := "Alice", content := some "hi", photos := [], gifs := [], videos := [],
    reactions := [], share := false, timestamp := tsHour14 }

def msgLen4 : Msg :=
  { sender_name := "Alice", content := some "aaaa", photos := [], gifs := [], videos := [],
    reactions := [], share := false, timestamp := tsHour14 }

def msgLen6 : Msg :=
  { sender_name := "Alice", content := some "bbb38b", photos := [], gifs := [], videos := [],
    reactions := [], share := false, timestamp := tsHour14 }

def msgReact : Msg :=
  { sender_name := "Alice", content := none, photos := [], gifs := [], videos := [],
    reactions := [{ actor := "Bob" }], share := false, timestamp := tsHour14 }

def msgApr2018 : Msg :=
  { sender_name := "Alice", content := some "yo", photos := [], gifs := [], videos := [],
    reactions := [], share := false, timestamp := tsApr2018 }

def msgBadActor : Msg :=
  { sender_name := "Alice", content := none, photos := [], gifs := [], videos := [],
    reactions := [{ actor := "Mallory" }], share := false, timestamp := tsHour14 }

def msgBadSender : Msg :=
  { sender_name := "Nobody", content := some "hi", photos := [], gifs := [], videos := [],
    reactions := [], share := false, timestamp := tsHour14 }

def tblAB : StatsTable := initStats Interval.hourly ["Alice", "Bob"]

def c2Table : StatsTable := (foldStep noEmoji Interval.hourly tblAB msgReact).getD tblAB

def c3Init : StatsTable := initStats Interval.monthly ["Alice"]

def c3Msgs : List Msg := [msgHi, msgApr2018]

def c3Table : StatsTable := (foldMessages noEmoji Interval.monthly c3Init c3Msgs).getD c3Init

def c5Init : StatsTable := initStats Interval.hourly ["Alice"]

def c5Table : StatsTable := (foldMessages noEmoji Interval.hourly c5Init [msgHi]).getD c5Init

def c7Init : StatsTable := initStats Interval.hourly ["Alice"]

def c7Msgs : List Msg := [msgLen4, msgLen6]

def c7T0 : StatsTable := (foldMessages noEmoji Interval.hourly c7Init c7Msgs).getD c7Init

def c7T1 : StatsTable := (normalizeTable c7T0).getD c7T0

def c7P0 : ParticipantStats := (lookupA c7T0.participants "Alice").getD pDefault

def c7P1 : ParticipantStats := (lookupA c7T1.participants "Alice").getD pDefault

theorem lookupA_updateA_self {κ α : Type} [DecidableEq κ] (m : List (κ × α)) (k : κ)
    (f : α → α) : lookupA (updateA m k f) k = (lookupA m k).map f := by
  induction m with
  | nil => rfl
  | cons e rest ih =>
    by_cases h : e.1 = k
    · simp [updateA, lookupA, h]
    · simp [updateA, lookupA, h, ih]

theorem lookupA_updateA_other {κ α : Type} [DecidableEq κ] (m : List (κ × α)) {k k' : κ}
    (f : α → α) (hk : k' ≠ k) : lookupA (updateA m k f) k' = lookupA m k' := by
  induction m with
  | nil => rfl
  | cons e rest ih =>
    by_cases h : e.1 = k
    · have hkk : ¬ k = k' := fun hh => hk hh.symm
      simp [updateA, lookupA, h, hkk]
    · by_cases h3 : e.1 = k'
      · simp [updateA, lookupA, h, h3, hk]
      · simp [updateA, lookupA, h, h3, ih]

theorem modifyA_some_elim {κ α : Type} [DecidableEq κ] {m m' : List (κ × α)} {k : κ}
    {f : α → α} (h : modifyA m k f = some m') :
    ∃ v, lookupA m k = some v ∧ m' = updateA m k f := by
  unfold modifyA at h
  by_cases hs : (lookupA m k).isSome
  · obtain ⟨v, hv⟩ := Option.isSome_iff_exists.mp hs
    exact ⟨v, hv, by simp [hs] at h; exact h.symm⟩
  · simp [hs] at h

theorem modifyA_none_of {κ α : Type} [DecidableEq κ] {m : List (κ × α)} {k : κ}
    (f : α → α) (h : lookupA m k = none) : modifyA m k f = none := by
  simp [modifyA, h]

theorem modifyA_isSome_of_some {κ α : Type} [DecidableEq κ] {m m' : List (κ × α)} {k : κ}
    {f : α → α} (h : modifyA m k f = some m') : (lookupA m k).isSome := by
  obtain ⟨v, hv, _⟩ := modifyA_some_elim h
  simp [hv]

theorem lookupA_modifyA_self {κ α : Type} [DecidableEq κ] {m m' : List (κ × α)} {k : κ}
    {f : α → α} (h : modifyA m k f = some m') : lookupA m' k = (lookupA m k).map f := by
  obtain ⟨v, hv, rfl⟩ := modifyA_some_elim h
  exact lookupA_updateA_self m k f

theorem lookupA_modifyA_other {κ α : Type} [DecidableEq κ] {m m' : List (κ × α)} {k k' : κ}
    {f : α → α} (h : modifyA m k f = some m') (hk : k' ≠ k) :
    lookupA m' k' = lookupA m k' := by
  obtain ⟨v, hv, rfl⟩ := modifyA_some_elim h
  exact lookupA_updateA_other m f hk

theorem sumBy_updateA_of_some {κ α : Type} [DecidableEq κ] (g : α → Nat) (d : Nat)
    {m : List (κ × α)} {k : κ} {f : α → α} {v : α} (h : lookupA m k = some v)
    (hd : ∀ x, g (f x) = g x + d) : sumBy g (updateA m k f) = sumBy g m + d := by
  induction m with
  | nil => simp [lookupA] at h
  | cons e rest ih =>
    by_cases he : e.1 = k
    · simp [updateA, sumBy, he, hd]
      omega
    · simp [lookupA, he] at h
      simp [updateA, sumBy, he]
      have := ih h
      simp [sumBy] at this
      omega

theorem sumBy_updateA_pres {κ α : Type} [DecidableEq κ] (g : α → Nat)
    (m : List (κ × α)) (k : κ) {f : α → α} (hd : ∀ x, g (f x) = g x) :
    sumBy g (updateA m k f) = sumBy g m := by
  induction m with
  | nil => rfl
  | cons e rest ih =>
    by_cases he : e.1 = k
    · simp [updateA, sumBy, he, hd]
    · simp [updateA, sumBy, he]
      have := ih
      simp [sumBy] at this
      omega

theorem sumBy_modifyA {κ α : Type} [DecidableEq κ] (g : α → Nat) (d : Nat)
    {m m' : List (κ × α)} {k : κ} {f : α → α} (h : modifyA m k f = some m')
    (hd : ∀ x, g (f x) = g x + d) : sumBy g m' = sumBy g m + d := by
  obtain ⟨v, hv, rfl⟩ := modifyA_some_elim h
  exact sumBy_updateA_of_some g d hv hd

theorem sumBy_append_single {κ α : Type} (g : α → Nat) (m : List (κ × α)) (k : κ) (v : α) :
    sumBy g (m ++ [(k, v)]) = sumBy g m + g v := by
  simp [sumBy]

theorem lookupA_append_some {κ α : Type} [DecidableEq κ] {m : List (κ × α)} {k' : κ} {v : α}
    (m2 : List (κ × α)) (h : lookupA m k' = some v) : lookupA (m ++ m2) k' = some v := by
  induction m with
  | nil => simp [lookupA] at h
  | cons e rest ih =>
    by_cases he : e.1 = k'
    · simp [lookupA, he] at h
      simp [lookupA, he, h]
    · simp [lookupA, he] at h
      simp [lookupA, he, ih h]

theorem lookupA_append_none {κ α : Type} [DecidableEq κ] {m : List (κ × α)} {k' : κ}
    (m2 : List (κ × α)) (h : lookupA m k' = none) :
    lookupA (m ++ m2) k' = lookupA m2 k' := by
  induction m with
  | nil => rfl
  | cons e rest ih =>
    by_cases he : e.1 = k'
    · simp [lookupA, he] at h
    · simp [lookupA, he] at h
      simp [lookupA, he, ih h]

theorem ensureInterval_general (k : IntervalKey) (p : ParticipantStats) :
    (ensureInterval k p).general = p.general := by
  unfold ensureInterval
  split <;> rfl

theorem lookupA_ensureInterval_self (k : IntervalKey) (p : ParticipantStats) :
    lookupA (ensureInterval k p).int k = some ((lookupA p.int k).getD _create_stats) := by
  unfold ensureInterval
  cases hv : lookupA p.int k with
  | none =>
    simp [hv]
    rw [lookupA_append_none _ hv]
    simp [lookupA]
  | some v => simp [hv]

theorem lookupA_ensureInterval_other {k k' : IntervalKey} (p : ParticipantStats)
    (hk : k' ≠ k) : lookupA (ensureInterval k p).int k' = lookupA p.int k' := by
  unfold ensureInterval
  cases hv : lookupA p.int k with
  | none =>
    simp [hv]
    cases hv' : lookupA p.int k' with
    | none =>
      have hkk : ¬ k = k' := fun hh => hk hh.symm
      rw [lookupA_append_none _ hv']
      simp [lookupA, hkk]
    | some v' => exact lookupA_append_some _ hv'
  | some v => simp [hv]

theorem bumpBoth_general (k : IntervalKey) (f : Stats → Stats) (p : ParticipantStats) :
    (bumpBoth k f p).general = f p.general := rfl

theorem lookupA_bumpBoth_self (k : IntervalKey) (f : Stats → Stats) (p : ParticipantStats) :
    lookupA (bumpBoth k f p).int k = (lookupA p.int k).map f :=
  lookupA_updateA_self p.int k f

theorem lookupA_bumpBoth_other {k k' : IntervalKey} (f : Stats → Stats)
    (p : ParticipantStats) (hk : k' ≠ k) :
    lookupA (bumpBoth k f p).int k' = lookupA p.int k' :=
  lookupA_updateA_other p.int f hk

theorem gate_some {c : Prop} [Decidable c] {hnd : Parts → Option Parts} {p q : Parts}
    (h : (if c then hnd p else some p) = some q) : hnd p = some q ∨ q = p := by
  split at h
  · exact Or.inl h
  · exact Or.inr (Option.some.inj h).symm

theorem map_proj_modifyA {β : Type} (g : ParticipantStats → β) {m m' : Parts} {nm : String}
    {f : ParticipantStats → ParticipantStats} (h : modifyA m nm f = some m')
    (hg : ∀ p, g (f p) = g p) (name : String) :
    (lookupA m' name).map g = (lookupA m name).map g := by
  by_cases hn : name = nm
  · subst hn
    rw [lookupA_modifyA_self h]
    cases lookupA m name <;> simp [hg]
  · rw [lookupA_modifyA_other h hn]

theorem map_proj_foldActs {β : Type} (g : ParticipantStats → β) {k : IntervalKey}
    (hg : ∀ p, g (reactionUpd k p) = g p) :
    ∀ (rs : List Reaction) (st st' : Parts), foldActs k rs st = some st' →
      ∀ name, (lookupA st' name).map g = (lookupA st name).map g := by
  intro rs
  induction rs with
  | nil =>
    intro st st' h name
    simp [foldActs] at h
    subst h
    rfl
  | cons r rest ih =>
    intro st st' h name
    simp only [foldActs] at h
    cases hm : modifyA st r.actor (reactionUpd k) with
    | none => simp [hm] at h
    | some st2 =>
      simp only [hm] at h
      exact (ih st2 st' h name).trans (map_proj_modifyA g hm hg name)

/-- Destructure a successful fold step into its six stages. -/
theorem foldStep_elim {isEmoji : Char → Bool} {mode : Interval} {table : StatsTable}
    {msg : Msg} {t' : StatsTable} (h : foldStep isEmoji mode table msg = some t') :
    ∃ p1 p2 p3 p4 p5 p6,
      modifyA table.participants msg.sender_name
        (ensureInterval (get_correct_interval msg.timestamp mode)) = some p1 ∧
      (if hasContent msg then
          handle_content isEmoji (get_correct_interval msg.timestamp mode) msg p1
        else some p1) = some p2 ∧
      (if !msg.photos.isEmpty || !msg.gifs.isEmpty then
          handle_photos_and_gifs (get_correct_interval msg.timestamp mode) msg p2
        else some p2) = some p3 ∧
      (if !msg.videos.isEmpty then
          handle_videos (get_correct_interval msg.timestamp mode) msg p3
        else some p3) = some p4 ∧
      (if !msg.reactions.isEmpty then
          handle_reactions (get_correct_interval msg.timestamp mode) msg p4
        else some p4) = some p5 ∧
      (if msg.share then
          handle_links (get_correct_interval msg.timestamp mode) msg p5
        else some p5) = some p6 ∧
      t' = { participants := p6,
             intervals :=
               if get_correct_interval msg.timestamp mode ∈ table.intervals
               then table.intervals
               else table.intervals ++ [get_correct_interval msg.timestamp mode] } := by
  simp only [foldStep] at h
  obtain ⟨p1, h1, h⟩ := Option.bind_eq_some.mp h
  obtain ⟨p2, h2, h⟩ := Option.bind_eq_some.mp h
  obtain ⟨p3, h3, h⟩ := Option.bind_eq_some.mp h
  obtain ⟨p4, h4, h⟩ := Option.bind_eq_some.mp h
  obtain ⟨p5, h5, h⟩ := Option.bind_eq_some.mp h
  obtain ⟨p6, h6, h⟩ := Option.bind_eq_some.mp h
  exact ⟨p1, p2, p3, p4, p5, p6, h1, h2, h3, h4, h5, h6, (Option.some.inj h).symm⟩

theorem foldStep_intervals {isEmoji : Char → Bool} {mode : Interval} {table : StatsTable}
    {msg : Msg} {t' : StatsTable} (h : foldStep isEmoji mode table msg = some t') :
    t'.intervals =
      if get_correct_interval msg.timestamp mode ∈ table.intervals
      then table.intervals
      else table.intervals ++ [get_correct_interval msg.timestamp mode] := by
  obtain ⟨_, _, _, _, _, _, _, _, _, _, _, _, ht⟩ := foldStep_elim h
  rw [ht]

theorem foldMessages_intervals {isEmoji : Char → Bool} {mode : Interval} :
    ∀ (msgs : List Msg) (table t : StatsTable),
      foldMessages isEmoji mode table msgs = some t →
      t.intervals =
        firstOccur table.intervals (msgs.map (fun m => get_correct_interval m.timestamp mode)) := by
  intro msgs
  induction msgs with
  | nil =>
    intro table t h
    simp [foldMessages] at h
    subst h
    rfl
  | cons m ms ih =>
    intro table t h
    simp only [foldMessages] at h
    cases hs : foldStep isEmoji mode table m with
    | none => simp [hs] at h
    | some t2 =>
      simp only [hs] at h
      rw [ih t2 t h, foldStep_intervals hs]
      simp only [List.map_cons, firstOccur]

theorem emoji_foldl (isEmoji : Char → Bool) :
    ∀ (s : List Char) (a : Nat),
      s.foldl (fun a c => a + (if isEmoji c then 1 else 0)) a = a + s.countP isEmoji := by
  intro s
  induction s with
  | nil => intro a; simp
  | cons c cs ih =>
    intro a
    cases h : isEmoji c
    · simp [h, ih, List.countP_cons]
    · simp [h, ih, List.countP_cons]
      omega

theorem gifCount_go :
    ∀ (ps : List Photo) (a b : Nat),
      ps.foldl (fun acc p => if is_gif p then (acc.1, acc.2 + 1) else (acc.1 + 1, acc.2)) (a, b)
        = (a + ps.countP (fun p => !is_gif p), b + ps.countP is_gif) := by
  intro ps
  induction ps with
  | nil => intro a b; simp
  | cons p ps ih =>
    intro a b
    cases h : is_gif p <;> simp [h, ih, List.countP_cons, Prod.ext_iff] <;> omega

theorem pad2_length (n : Nat) (h1 : 1 ≤ n) (h2 : n ≤ 12) : (pad2 n).length = 2 := by
  interval_cases n <;> rfl

/-- Claim C1 (code bug in the source): on the failing input — a
conversation whose participant "Alice" has zero text messages (here a
zero-event conversation) — the fold itself succeeds and every
interval-scoped record is guarded (`normalizeInt` leaves a zeroed
record untouched), but the unguarded all-time division of
src/analyze.py:325 runs with `msgs_sent = 0`, so the whole
normalization pass faults (`none` models the `ZeroDivisionError`)
instead of leaving the average at 0 as the claim states. -/
theorem C1_zero_messages_division_fault :
    foldMessages noEmoji Interval.hourly (initStats Interval.hourly ["Alice"]) []
        = some (initStats Interval.hourly ["Alice"]) ∧
    normalizeInt _create_stats = _create_stats ∧
    normalizeTable (initStats Interval.hourly ["Alice"]) = none ∧
    analyze noEmoji Interval.hourly ["Alice"] [] = none :=
  ⟨rfl, rfl, rfl, rfl⟩

/-- Claim C8 (confirmed): `count_emoji` returns the number of
non-overlapping occurrences of the escaped marker `\u` divided by 4
(integer division), plus the number of characters of the string that
belong to the symbol-set membership table, the two counts added with
no deduplication; as a `Nat` the result is non-negative by type. -/
theorem C8_count_emoji_formula (isEmoji : Char → Bool) (s : List Char) :
    count_emoji isEmoji s = countMarker s / 4 + s.countP isEmoji := by
  unfold count_emoji
  rw [emoji_foldl]
  simp

/-- Claim C9 (confirmed): under the datetime invariants `hour ≤ 23` and
`1 ≤ month ≤ 12`, the derived key is the integer hour (0–23) in
hourly mode, the string `year-MM` with the month zero-padded to two
digits in monthly mode, and the decimal year string in yearly mode;
`get_correct_interval` is a pure function of the timestamp and the
mode. -/
theorem C9_interval_key (stamp : Timestamp) (hh : stamp.hour ≤ 23)
    (hm1 : 1 ≤ stamp.month) (hm2 : stamp.month ≤ 12) :
    (get_correct_interval stamp Interval.hourly = IntervalKey.hour stamp.hour ∧
      stamp.hour ≤ 23) ∧
    (get_correct_interval stamp Interval.monthly
        = IntervalKey.text (toString stamp.year ++ "-" ++ pad2 stamp.month) ∧
      (pad2 stamp.month).length = 2) ∧
    get_correct_interval stamp Interval.yearly = IntervalKey.text (toString stamp.year) :=
  ⟨⟨rfl, hh⟩, ⟨rfl, pad2_length _ hm1 hm2⟩, rfl⟩

/-- Witness for C9 at the concrete timestamp 2019-05, hour 14. -/
theorem C9_interval_key_witness :
    (get_correct_interval tsHour14 Interval.hourly = IntervalKey.hour tsHour14.hour ∧
      tsHour14.hour ≤ 23) ∧
    (get_correct_interval tsHour14 Interval.monthly
        = IntervalKey.text (toString tsHour14.year ++ "-" ++ pad2 tsHour14.month) ∧
      (pad2 tsHour14.month).length = 2) ∧
    get_correct_interval tsHour14 Interval.yearly = IntervalKey.text (toString tsHour14.year) :=
  C9_interval_key tsHour14 (by decide) (by decide) (by decide)

/-- Claim C4 counterexample: the attachment with locator `a.gif.jpg`
does not end in the GIF extension, yet `is_gif` accepts it (the code
tests substring containment, not a suffix), so the classification
loop counts it as a GIF and not as a photo. -/
theorem C4_counterexample :
    is_gif { uri := "a.gif.jpg" } = true ∧
    endsWithGifExt "a.gif.jpg" = false ∧
    gifCount [{ uri := "a.gif.jpg" }] = (0, 1) := by
  decide

/-- Claim C4 as amended: an attachment (from the concatenation of the
`photos` and `gifs` lists) is counted as a GIF if and only if its
locator *contains* the substring `.gif` (`is_gif`), otherwise as a
photo; the two counts partition the attachments — each attachment is
counted in exactly one of the two categories. -/
theorem C4_gif_photo_partition (msg : Msg) :
    (gifCount (msg.photos ++ msg.gifs)).2 = (msg.photos ++ msg.gifs).countP is_gif ∧
    (gifCount (msg.photos ++ msg.gifs)).1
        = (msg.photos ++ msg.gifs).countP (fun p => !is_gif p) ∧
    (gifCount (msg.photos ++ msg.gifs)).1 + (gifCount (msg.photos ++ msg.gifs)).2
        = (msg.photos ++ msg.gifs).length := by
  have hg := gifCount_go (msg.photos ++ msg.gifs) 0 0
  unfold gifCount
  rw [hg]
  refine ⟨by simp, by simp, ?_⟩
  simp [List.length_eq_countP_add_countP is_gif]
  omega

/-- Claim C3 counterexample: in monthly mode, events encountered in the
order 2019-05 then 2018-04 make `print_interval_stats` iterate the
keys as `["2019-05", "2018-04"]`, which is not lexicographically
ascending — the display order depends on encounter order. -/
theorem C3_counterexample :
    (foldMessages noEmoji Interval.monthly c3Init c3Msgs).map
        (fun t => (displayIntervals Interval.monthly t,
                   keysAscending (displayIntervals Interval.monthly t)))
      = some ([IntervalKey.text "2019-05", IntervalKey.text "2018-04"], false) := by
  decide

/-- Claim C3 as amended: hourly mode iterates the hours 0..23 in
ascending numeric order independently of the events; monthly and
yearly modes iterate `stats['intervals']`, which holds the distinct
keys in order of first occurrence in the event sequence — ascending
only when the events happen to be chronologically ordered. -/
theorem C3_display_order (isEmoji : Char → Bool) (mode : Interval) (table : StatsTable)
    (msgs : List Msg) (t : StatsTable)
    (hf : foldMessages isEmoji mode table msgs = some t) :
    keysAscending (displayIntervals Interval.hourly t) = true ∧
    displayIntervals Interval.monthly t = t.intervals ∧
    displayIntervals Interval.yearly t = t.intervals ∧
    t.intervals =
      firstOccur table.intervals (msgs.map (fun m => get_correct_interval m.timestamp mode)) :=
  ⟨rfl, rfl, rfl, foldMessages_intervals msgs table t hf⟩

theorem lookupA_modifyA_none_pres {κ α : Type} [DecidableEq κ] {m m' : List (κ × α)}
    {k k' : κ} {f : α → α} (h : modifyA m k f = some m') (h2 : lookupA m k' = none) :
    lookupA m' k' = none := by
  by_cases hk : k' = k
  · subst hk
    rw [lookupA_modifyA_self h, h2]
    rfl
  · rw [lookupA_modifyA_other h hk]
    exact h2

theorem foldActs_none_of_absent (k : IntervalKey) :
    ∀ (rs : List Reaction) (st : Parts) (r : Reaction), r ∈ rs →
      lookupA st r.actor = none → foldActs k rs st = none := by
  intro rs
  induction rs with
  | nil =>
    intro st r hr habs
    exact absurd hr (List.not_mem_nil r)
  | cons r0 rest ih =>
    intro st r hr habs
    simp only [foldActs]
    cases hm : modifyA st r0.actor (reactionUpd k) with
    | none => rfl
    | some st2 =>
      have hsome := modifyA_isSome_of_some hm
      have hne : r.actor ≠ r0.actor := by
        intro he
        rw [he] at habs
        rw [habs] at hsome
        simp at hsome
      have hr' : r ∈ rest := by
        rcases List.mem_cons.mp hr with rfl | hmem
        · exact (hne rfl).elim
        · exact hmem
      exact ih st2 r hr' (lookupA_modifyA_none_pres hm habs)

/-- Claim C10 (confirmed): the fold step is not total over events whose
sender, or any reaction's actor, is absent from the declared
participant table: it returns `none` (the `KeyError`) instead of
creating a record or skipping the event. -/
theorem C10_unknown_name_faults (isEmoji : Char → Bool) (mode : Interval)
    (table : StatsTable) (msg : Msg) :
    (lookupA table.participants msg.sender_name = none →
      foldStep isEmoji mode table msg = none) ∧
    (∀ r, r ∈ msg.reactions → lookupA table.participants r.actor = none →
      foldStep isEmoji mode table msg = none) := by
  constructor
  · intro h
    simp only [foldStep]
    rw [modifyA_none_of _ h]
    rfl
  · intro r hr habs
    cases hfs : foldStep isEmoji mode table msg with
    | none => rfl
    | some t' =>
      exfalso
      obtain ⟨p1, p2, p3, p4, p5, p6, h1, h2, h3, h4, h5, h6, ht⟩ := foldStep_elim hfs
      have n1 : lookupA p1 r.actor = none := lookupA_modifyA_none_pres h1 habs
      have n2 : lookupA p2 r.actor = none := by
        rcases gate_some h2 with h2' | rfl
        · unfold handle_content at h2'
          exact lookupA_modifyA_none_pres h2' n1
        · exact n1
      have n3 : lookupA p3 r.actor = none := by
        rcases gate_some h3 with h3' | rfl
        · unfold handle_photos_and_gifs at h3'
          exact lookupA_modifyA_none_pres h3' n2
        · exact n2
      have n4 : lookupA p4 r.actor = none := by
        rcases gate_some h4 with h4' | rfl
        · unfold handle_videos at h4'
          exact lookupA_modifyA_none_pres h4' n3
        · exact n3
      have hne : msg.reactions.isEmpty = false := by
        cases hrs : msg.reactions with
        | nil => rw [hrs] at hr; cases hr
        | cons a l => rfl
      rw [hne] at h5
      simp only [Bool.not_false, if_true] at h5
      unfold handle_reactions at h5
      rw [foldActs_none_of_absent _ msg.reactions p4 r hr n4] at h5
      cases h5

/-- Witness for C10: an unknown sender and an unknown reaction actor
both abort the fold step on the concrete two-participant table. -/
theorem C10_unknown_name_faults_witness :
    foldStep noEmoji Interval.hourly tblAB msgBadSender = none ∧
    foldStep noEmoji Interval.hourly tblAB msgBadActor = none :=
  ⟨(C10_unknown_name_faults noEmoji Interval.hourly tblAB msgBadSender).1 rfl,
   (C10_unknown_name_faults noEmoji Interval.hourly tblAB msgBadActor).2
     { actor := "Mallory" } (by decide) rfl⟩

/-- Witness for the amended C3 at the concrete two-event monthly run. -/
theorem C3_display_order_witness :
    keysAscending (displayIntervals Interval.hourly c3Table) = true ∧
    displayIntervals Interval.monthly c3Table = c3Table.intervals ∧
    displayIntervals Interval.yearly c3Table = c3Table.intervals ∧
    c3Table.intervals =
      firstOccur c3Init.intervals
        (c3Msgs.map (fun m => get_correct_interval m.timestamp Interval.monthly)) :=
  C3_display_order noEmoji Interval.monthly c3Init c3Msgs c3Table rfl

theorem reactionUpd_general_eq (k : IntervalKey) (p : ParticipantStats) :
    (reactionUpd k p).general = reactionBump p.general := by
  unfold reactionUpd
  rw [bumpBoth_general, ensureInterval_general]

theorem totalMsgs_modifyA_shift (d : Nat) {m m' : Parts} {nm : String}
    {f : ParticipantStats → ParticipantStats} (h : modifyA m nm f = some m')
    (hf : ∀ x, (f x).general.msgs_sent = x.general.msgs_sent + d) :
    totalMsgsSent m' = totalMsgsSent m + d := by
  unfold totalMsgsSent
  exact sumBy_modifyA (fun p => p.general.msgs_sent) d h hf

theorem totalMsgs_foldActs (k : IntervalKey) :
    ∀ (rs : List Reaction) (st st' : Parts), foldActs k rs st = some st' →
      totalMsgsSent st' = totalMsgsSent st := by
  intro rs
  induction rs with
  | nil =>
    intro st st' h
    simp [foldActs] at h
    subst h
    rfl
  | cons r rest ih =>
    intro st st' h
    simp only [foldActs] at h
    cases hm : modifyA st r.actor (reactionUpd k) with
    | none => simp [hm] at h
    | some st2 =>
      simp only [hm] at h
      rw [ih st2 st' h]
      have := totalMsgs_modifyA_shift 0 hm
        (fun x => by rw [reactionUpd_general_eq]; rfl)
      omega

theorem foldStep_totalMsgs {isEmoji : Char → Bool} {mode : Interval} {table : StatsTable}
    {msg : Msg} {t' : StatsTable} (h : foldStep isEmoji mode table msg = some t') :
    totalMsgsSent t'.participants
      = totalMsgsSent table.participants + (if hasContent msg then 1 else 0) := by
  obtain ⟨p1, p2, p3, p4, p5, p6, h1, h2, h3, h4, h5, h6, ht⟩ := foldStep_elim h
  have e1 : totalMsgsSent p1 = totalMsgsSent table.participants + 0 :=
    totalMsgs_modifyA_shift 0 h1 (fun x => by rw [ensureInterval_general]; omega)
  have e3 : totalMsgsSent p3 = totalMsgsSent p2 := by
    rcases gate_some h3 with h3' | rfl
    · unfold handle_photos_and_gifs at h3'
      have := totalMsgs_modifyA_shift 0 h3' (fun x => rfl)
      omega
    · rfl
  have e4 : totalMsgsSent p4 = totalMsgsSent p3 := by
    rcases gate_some h4 with h4' | rfl
    · unfold handle_videos at h4'
      have := totalMsgs_modifyA_shift 0 h4' (fun x => rfl)
      omega
    · rfl
  have e5 : totalMsgsSent p5 = totalMsgsSent p4 := by
    rcases gate_some h5 with h5' | rfl
    · unfold handle_reactions at h5'
      exact totalMsgs_foldActs _ msg.reactions p4 p5 h5'
    · rfl
  have e6 : totalMsgsSent p6 = totalMsgsSent p5 := by
    rcases gate_some h6 with h6' | rfl
    · unfold handle_links at h6'
      have := totalMsgs_modifyA_shift 0 h6' (fun x => rfl)
      omega
    · rfl
  have ht6 : totalMsgsSent t'.participants = totalMsgsSent p6 := by rw [ht]
  cases hc : hasContent msg with
  | false =>
    rw [hc] at h2
    simp at h2
    subst h2
    simp only [Bool.false_eq_true, if_false]
    omega
  | true =>
    rw [hc] at h2
    simp only [if_true] at h2
    unfold handle_content at h2
    have e2 : totalMsgsSent p2 = totalMsgsSent p1 + 1 :=
      totalMsgs_modifyA_shift 1 h2 (fun x => rfl)
    simp only [if_true]
    omega

theorem foldMessages_totalMsgs {isEmoji : Char → Bool} {mode : Interval} :
    ∀ (msgs : List Msg) (table t : StatsTable),
      foldMessages isEmoji mode table msgs = some t →
      totalMsgsSent t.participants = totalMsgsSent table.participants + msgs.countP hasContent := by
  intro msgs
  induction msgs with
  | nil =>
    intro table t h
    simp [foldMessages] at h
    subst h
    simp
  | cons m ms ih =>
    intro table t h
    simp only [foldMessages] at h
    cases hs : foldStep isEmoji mode table m with
    | none => simp [hs] at h
    | some t2 =>
      simp only [hs] at h
      have e1 := foldStep_totalMsgs hs
      have e2 := ih t2 t h
      rw [List.countP_cons]
      cases hc : hasContent m with
      | false =>
        rw [hc] at e1
        simp only [Bool.false_eq_true, if_false] at e1
        simp [hc]
        omega
      | true =>
        rw [hc] at e1
        simp only [if_true] at e1
        simp [hc]
        omega

theorem totalMsgsSent_init (mode : Interval) (ps : List String) :
    totalMsgsSent (initStats mode ps).participants = 0 := by
  induction ps with
  | nil => rfl
  | cons n rest ih =>
    simp only [initStats, totalMsgsSent, sumBy, List.map_cons, List.sum_cons] at *
    rw [ih]
    cases mode <;> rfl

/-- Claim C6 (confirmed): after a successful fold, the sum over all
participants of the all-time messages-sent counters equals the number
of events of the input that carry non-empty text content — each
text-carrying event contributes exactly once and events without text
contribute nothing. -/
theorem C6_no_double_counting (isEmoji : Char → Bool) (mode : Interval) (ps : List String)
    (msgs : List Msg) (t : StatsTable)
    (hf : foldMessages isEmoji mode (initStats mode ps) msgs = some t) :
    totalMsgsSent t.participants = msgs.countP hasContent := by
  have := foldMessages_totalMsgs msgs (initStats mode ps) t hf
  rw [totalMsgsSent_init] at this
  omega

/-- Witness for C6: the one-event run with text content `hi` yields a
total of exactly one message sent. -/
theorem C6_no_double_counting_witness :
    totalMsgsSent c5Table.participants = ([msgHi] : List Msg).countP hasContent :=
  C6_no_double_counting noEmoji Interval.hourly ["Alice"] [msgHi] c5Table rfl

theorem invAll_updateA (Inv : ParticipantStats → Prop) {m : Parts} {nm : String}
    {f : ParticipantStats → ParticipantStats} (hall : invAllP Inv m)
    (hrec : ∀ v, lookupA m nm = some v → Inv (f v)) : invAllP Inv (updateA m nm f) := by
  intro name p hp
  by_cases hn : name = nm
  · subst hn
    rw [lookupA_updateA_self] at hp
    cases hv : lookupA m name with
    | none => rw [hv] at hp; cases hp
    | some v =>
      rw [hv] at hp
      simp at hp
      exact hp ▸ hrec v hv
  · rw [lookupA_updateA_other m f hn] at hp
    exact hall name p hp

theorem invAll_modifyA (Inv : ParticipantStats → Prop) {m m' : Parts} {nm : String}
    {f : ParticipantStats → ParticipantStats} (h : modifyA m nm f = some m')
    (hall : invAllP Inv m) (hrec : ∀ v, lookupA m nm = some v → Inv (f v)) :
    invAllP Inv m' := by
  obtain ⟨v, hv, rfl⟩ := modifyA_some_elim h
  exact invAll_updateA Inv hall hrec

theorem invAll_gate (Inv : ParticipantStats → Prop) {c : Prop} [Decidable c]
    {hnd : Parts → Option Parts} {p q : Parts}
    (h : (if c then hnd p else some p) = some q)
    (hp : ∀ q2, hnd p = some q2 → invAllP Inv p → invAllP Inv q2)
    (hall : invAllP Inv p) : invAllP Inv q := by
  rcases gate_some h with h' | rfl
  · exact hp q h' hall
  · exact hall

theorem invAll_foldActs (Inv : ParticipantStats → Prop) {k : IntervalKey}
    (hrec : ∀ p, Inv p → Inv (reactionUpd k p)) :
    ∀ (rs : List Reaction) (st st' : Parts), foldActs k rs st = some st' →
      invAllP Inv st → invAllP Inv st' := by
  intro rs
  induction rs with
  | nil =>
    intro st st' h hall
    simp [foldActs] at h
    subst h
    exact hall
  | cons r rest ih =>
    intro st st' h hall
    simp only [foldActs] at h
    cases hm : modifyA st r.actor (reactionUpd k) with
    | none => simp [hm] at h
    | some st2 =>
      simp only [hm] at h
      exact ih st2 st' h (invAll_modifyA Inv hm hall (fun v hv => hrec v (hall _ v hv)))

theorem msgsInv_ensure (k : IntervalKey) (p : ParticipantStats)
    (h : p.general.msgs_sent = sumBy (fun s => s.msgs_sent) p.int) :
    (ensureInterval k p).general.msgs_sent
      = sumBy (fun s => s.msgs_sent) (ensureInterval k p).int := by
  unfold ensureInterval
  split
  · exact h
  · show p.general.msgs_sent = sumBy (fun s => s.msgs_sent) (p.int ++ [(k, _create_stats)])
    rw [sumBy_append_single, h]
    simp [_create_stats]

theorem msgsInv_bumpBoth_pres (f : Stats → Stats) (hf : ∀ s, (f s).msgs_sent = s.msgs_sent)
    (k : IntervalKey) (p : ParticipantStats)
    (h : p.general.msgs_sent = sumBy (fun s => s.msgs_sent) p.int) :
    (bumpBoth k f p).general.msgs_sent
      = sumBy (fun s => s.msgs_sent) (bumpBoth k f p).int := by
  show (f p.general).msgs_sent = sumBy (fun s => s.msgs_sent) (updateA p.int k f)
  rw [hf, sumBy_updateA_pres (fun s => s.msgs_sent) p.int k hf, h]

theorem msgsInv_reactionUpd (k : IntervalKey) (p : ParticipantStats)
    (h : p.general.msgs_sent = sumBy (fun s => s.msgs_sent) p.int) :
    (reactionUpd k p).general.msgs_sent
      = sumBy (fun s => s.msgs_sent) (reactionUpd k p).int := by
  unfold reactionUpd
  exact msgsInv_bumpBoth_pres reactionBump (fun s => rfl) k _ (msgsInv_ensure k p h)

theorem msgsInv_content (k : IntervalKey) (L E : Nat) (p : ParticipantStats)
    (h : p.general.msgs_sent = sumBy (fun s => s.msgs_sent) p.int)
    (hpres : (lookupA p.int k).isSome) :
    (bumpBoth k (contentBump L E) p).general.msgs_sent
      = sumBy (fun s => s.msgs_sent) (bumpBoth k (contentBump L E) p).int := by
  obtain ⟨s, hs⟩ := Option.isSome_iff_exists.mp hpres
  show (contentBump L E p.general).msgs_sent
    = sumBy (fun x => x.msgs_sent) (updateA p.int k (contentBump L E))
  rw [sumBy_updateA_of_some (fun x => x.msgs_sent) 1 hs (fun x => rfl)]
  show p.general.msgs_sent + 1 = sumBy (fun x => x.msgs_sent) p.int + 1
  rw [h]

theorem foldStep_msgsInv {isEmoji : Char → Bool} {mode : Interval} {table : StatsTable}
    {msg : Msg} {t' : StatsTable} (h : foldStep isEmoji mode table msg = some t')
    (hall : msgsSumInv table.participants) : msgsSumInv t'.participants := by
  obtain ⟨p1, p2, p3, p4, p5, p6, h1, h2, h3, h4, h5, h6, ht⟩ := foldStep_elim h
  have i1 : msgsSumInv p1 :=
    invAll_modifyA _ h1 hall
      (fun v hv => msgsInv_ensure (get_correct_interval msg.timestamp mode) v (hall _ v hv))
  have hp1 : lookupA p1 msg.sender_name
      = (lookupA table.participants msg.sender_name).map
          (ensureInterval (get_correct_interval msg.timestamp mode)) :=
    lookupA_modifyA_self h1
  have i2 : msgsSumInv p2 := by
    refine invAll_gate _ h2 (fun q2 h2' hall1 => ?_) i1
    unfold handle_content at h2'
    refine invAll_modifyA _ h2' hall1 (fun v hv => ?_)
    have hpres : (lookupA v.int (get_correct_interval msg.timestamp mode)).isSome := by
      rw [hv] at hp1
      cases hv0 : lookupA table.participants msg.sender_name with
      | none => rw [hv0] at hp1; cases hp1
      | some v0 =>
        rw [hv0] at hp1
        simp at hp1
        rw [hp1, lookupA_ensureInterval_self]
        rfl
    exact msgsInv_content _ _ _ v (hall1 _ v hv) hpres
  have i3 : msgsSumInv p3 := by
    refine invAll_gate _ h3 (fun q2 h3' hall1 => ?_) i2
    unfold handle_photos_and_gifs at h3'
    exact invAll_modifyA _ h3' hall1
      (fun v hv => msgsInv_bumpBoth_pres
        (photoBump (gifCount (msg.photos ++ msg.gifs)).1 (gifCount (msg.photos ++ msg.gifs)).2)
        (fun s => rfl) _ v (hall1 _ v hv))
  have i4 : msgsSumInv p4 := by
    refine invAll_gate _ h4 (fun q2 h4' hall1 => ?_) i3
    unfold handle_videos at h4'
    exact invAll_modifyA _ h4' hall1
      (fun v hv => msgsInv_bumpBoth_pres (videoBump msg.videos.length)
        (fun s => rfl) _ v (hall1 _ v hv))
  have i5 : msgsSumInv p5 := by
    refine invAll_gate _ h5 (fun q2 h5' hall1 => ?_) i4
    unfold handle_reactions at h5'
    exact invAll_foldActs _ (fun p hp => msgsInv_reactionUpd _ p hp) msg.reactions _ _ h5' hall1
  have i6 : msgsSumInv p6 := by
    refine invAll_gate _ h6 (fun q2 h6' hall1 => ?_) i5
    unfold handle_links at h6'
    exact invAll_modifyA _ h6' hall1
      (fun v hv => msgsInv_bumpBoth_pres linkBump (fun s => rfl) _ v (hall1 _ v hv))
  rw [ht]
  exact i6

theorem foldMessages_msgsInv {isEmoji : Char → Bool} {mode : Interval} :
    ∀ (msgs : List Msg) (table t : StatsTable),
      foldMessages isEmoji mode table msgs = some t →
      msgsSumInv table.participants → msgsSumInv t.participants := by
  intro msgs
  induction msgs with
  | nil =>
    intro table t h hall
    simp [foldMessages] at h
    subst h
    exact hall
  | cons m ms ih =>
    intro table t h hall
    simp only [foldMessages] at h
    cases hs : foldStep isEmoji mode table m with
    | none => simp [hs] at h
    | some t2 =>
      simp only [hs] at h
      exact ih t2 t h (foldStep_msgsInv hs hall)

theorem initStats_lookup (mode : Interval) :
    ∀ (ps : List String) (name : String) (p : ParticipantStats),
      lookupA (initStats mode ps).participants name = some p → p = create_stats mode := by
  intro ps
  induction ps with
  | nil => intro name p h; simp [initStats, lookupA] at h
  | cons n rest ih =>
    intro name p h
    simp only [initStats, List.map_cons, lookupA] at h
    by_cases hn : n = name
    · rw [if_pos hn] at h
      exact (Option.some.inj h).symm
    · rw [if_neg hn] at h
      exact ih name p h

theorem create_stats_msgsInv (mode : Interval) :
    (create_stats mode).general.msgs_sent
      = sumBy (fun s => s.msgs_sent) (create_stats mode).int := by
  cases mode <;> rfl

/-- Claim C5 (confirmed): after folding any event sequence every
participant's all-time messages-sent equals the sum of the
interval-scoped messages-sent over that participant's interval
mapping, and this relation is preserved by every individual fold
step. -/
theorem C5_totals_consistency (isEmoji : Char → Bool) (mode : Interval) (ps : List String)
    (msgs : List Msg) (t : StatsTable)
    (hf : foldMessages isEmoji mode (initStats mode ps) msgs = some t) :
    msgsSumInv t.participants ∧
    (∀ (table : StatsTable) (msg : Msg) (t2 : StatsTable),
      msgsSumInv table.participants → foldStep isEmoji mode table msg = some t2 →
      msgsSumInv t2.participants) := by
  constructor
  · have init : msgsSumInv (initStats mode ps).participants := by
      intro name p hp
      rw [initStats_lookup mode ps name p hp]
      exact create_stats_msgsInv mode
    exact foldMessages_msgsInv msgs _ t hf init
  · intro table msg t2 hall hs
    exact foldStep_msgsInv hs hall

theorem intReactionsOf_eq (parts : Parts) (name : String) (k : IntervalKey) :
    intReactionsOf parts name k
      = ((lookupA parts name).map
          (fun p => ((lookupA p.int k).map (fun s => s.reactions)).getD 0)).getD 0 := by
  unfold intReactionsOf
  cases lookupA parts name <;> simp

theorem intReactionsOf_pos_isSome {parts : Parts} {name : String} {k : IntervalKey}
    (h : intReactionsOf parts name k ≠ 0) :
    ((lookupA parts name).bind (fun p => lookupA p.int k)).isSome = true := by
  unfold intReactionsOf at h
  cases h1 : lookupA parts name with
  | none => rw [h1] at h; simp at h
  | some p =>
    cases h2 : lookupA p.int k with
    | none => simp [h1, h2] at h
    | some s => simp [h1, h2]

theorem react_pres_modifyA {m m' : Parts} {nm : String} {k : IntervalKey}
    {f : ParticipantStats → ParticipantStats} (h : modifyA m nm f = some m')
    (hA : ∀ p, (f p).general.reactions = p.general.reactions)
    (hI : ∀ p, ((lookupA (f p).int k).map (fun s => s.reactions)).getD 0
            = ((lookupA p.int k).map (fun s => s.reactions)).getD 0) (name : String) :
    reactionsOf m' name = reactionsOf m name ∧
    intReactionsOf m' name k = intReactionsOf m name k := by
  constructor
  · unfold reactionsOf
    rw [map_proj_modifyA (fun p => p.general.reactions) h hA name]
  · rw [intReactionsOf_eq, intReactionsOf_eq,
        map_proj_modifyA (fun p => ((lookupA p.int k).map (fun s => s.reactions)).getD 0)
          h hI name]

theorem ensure_react_at (k : IntervalKey) (p : ParticipantStats) :
    ((lookupA (ensureInterval k p).int k).map (fun s => s.reactions)).getD 0
      = ((lookupA p.int k).map (fun s => s.reactions)).getD 0 := by
  rw [lookupA_ensureInterval_self]
  cases h : lookupA p.int k <;> simp [h, _create_stats]

theorem bumpBoth_react_at (f : Stats → Stats) (hf : ∀ s, (f s).reactions = s.reactions)
    (k : IntervalKey) (p : ParticipantStats) :
    ((lookupA (bumpBoth k f p).int k).map (fun s => s.reactions)).getD 0
      = ((lookupA p.int k).map (fun s => s.reactions)).getD 0 := by
  rw [lookupA_bumpBoth_self]
  cases h : lookupA p.int k <;> simp [h, hf]

theorem reactionUpd_react_general (k : IntervalKey) (p : ParticipantStats) :
    (reactionUpd k p).general.reactions = p.general.reactions + 1 := by
  rw [reactionUpd_general_eq]
  rfl

theorem reactionUpd_react_at (k : IntervalKey) (p : ParticipantStats) :
    ((lookupA (reactionUpd k p).int k).map (fun s => s.reactions)).getD 0
      = ((lookupA p.int k).map (fun s => s.reactions)).getD 0 + 1 := by
  unfold reactionUpd
  rw [lookupA_bumpBoth_self, lookupA_ensureInterval_self]
  cases h : lookupA p.int k <;> simp [h, reactionBump, _create_stats]

theorem foldActs_react_count (k : IntervalKey) :
    ∀ (rs : List Reaction) (st st' : Parts), foldActs k rs st = some st' → ∀ name,
      reactionsOf st' name = reactionsOf st name + rs.countP (fun r => r.actor == name) ∧
      intReactionsOf st' name k
        = intReactionsOf st name k + rs.countP (fun r => r.actor == name) := by
  intro rs
  induction rs with
  | nil =>
    intro st st' h name
    simp [foldActs] at h
    subst h
    simp
  | cons r rest ih =>
    intro st st' h name
    simp only [foldActs] at h
    cases hm : modifyA st r.actor (reactionUpd k) with
    | none => simp [hm] at h
    | some st2 =>
      simp only [hm] at h
      obtain ⟨ihA, ihI⟩ := ih st2 st' h name
      by_cases hn : r.actor = name
      · subst hn
        have hsome := modifyA_isSome_of_some hm
        obtain ⟨v, hv⟩ := Option.isSome_iff_exists.mp hsome
        have hstep : lookupA st2 r.actor = some (reactionUpd k v) := by
          rw [lookupA_modifyA_self hm, hv]
          rfl
        have eA : reactionsOf st2 r.actor = reactionsOf st r.actor + 1 := by
          unfold reactionsOf
          rw [hstep, hv]
          simp [reactionUpd_react_general]
        have eI : intReactionsOf st2 r.actor k = intReactionsOf st r.actor k + 1 := by
          rw [intReactionsOf_eq, intReactionsOf_eq, hstep, hv]
          simp [reactionUpd_react_at]
        constructor
        · rw [ihA, eA, List.countP_cons]
          simp
          omega
        · rw [ihI, eI, List.countP_cons]
          simp
          omega
      · have hne : r.actor ≠ name := hn
        have eA : reactionsOf st2 name = reactionsOf st name := by
          unfold reactionsOf
          rw [lookupA_modifyA_other hm (fun he => hne he.symm)]
        have eI : intReactionsOf st2 name k = intReactionsOf st name k := by
          rw [intReactionsOf_eq, intReactionsOf_eq,
              lookupA_modifyA_other hm (fun he => hne he.symm)]
        have hcount : (r.actor == name) = false := by simp [hne]
        constructor
        · rw [ihA, eA, List.countP_cons, hcount]
          simp
        · rw [ihI, eI, List.countP_cons, hcount]
          simp

/-- Claim C2 (confirmed): a fold step over an event carrying reactions
adds, for every participant name, exactly the number of that event's
reactions whose actor is that name to the name's all-time
reactions-received counter and to the name's counter for the event's
interval (the interval entry exists afterwards whenever the name
reacted, created lazily if absent).  Instantiating `name` with the
event's sender when the sender is not an actor of any reaction gives
count 0 — the sender's counters are untouched. -/
theorem C2_reaction_attribution (isEmoji : Char → Bool) (mode : Interval)
    (table : StatsTable) (msg : Msg) (t' : StatsTable) (name : String)
    (hr : msg.reactions ≠ [])
    (hf : foldStep isEmoji mode table msg = some t') :
    reactionsOf t'.participants name
        = reactionsOf table.participants name
          + msg.reactions.countP (fun r => r.actor == name) ∧
    intReactionsOf t'.participants name (get_correct_interval msg.timestamp mode)
        = intReactionsOf table.participants name (get_correct_interval msg.timestamp mode)
          + msg.reactions.countP (fun r => r.actor == name) ∧
    (msg.reactions.countP (fun r => r.actor == name) ≠ 0 →
      ((lookupA t'.participants name).bind
        (fun p => lookupA p.int (get_correct_interval msg.timestamp mode))).isSome = true) := by
  obtain ⟨p1, p2, p3, p4, p5, p6, h1, h2, h3, h4, h5, h6, ht⟩ := foldStep_elim hf
  have e1 := react_pres_modifyA h1 (fun p => by rw [ensureInterval_general])
    (fun p => ensure_react_at _ p) name
  have e2 : reactionsOf p2 name = reactionsOf p1 name ∧
      intReactionsOf p2 name (get_correct_interval msg.timestamp mode)
        = intReactionsOf p1 name (get_correct_interval msg.timestamp mode) := by
    rcases gate_some h2 with h2' | rfl
    · unfold handle_content at h2'
      exact react_pres_modifyA h2' (fun p => rfl)
        (fun p => bumpBoth_react_at
          (contentBump (msg.content.getD "").length
            (count_emoji isEmoji (msg.content.getD "").data)) (fun s => rfl) _ p) name
    · exact ⟨rfl, rfl⟩
  have e3 : reactionsOf p3 name = reactionsOf p2 name ∧
      intReactionsOf p3 name (get_correct_interval msg.timestamp mode)
        = intReactionsOf p2 name (get_correct_interval msg.timestamp mode) := by
    rcases gate_some h3 with h3' | rfl
    · unfold handle_photos_and_gifs at h3'
      exact react_pres_modifyA h3' (fun p => rfl)
        (fun p => bumpBoth_react_at
          (photoBump (gifCount (msg.photos ++ msg.gifs)).1 (gifCount (msg.photos ++ msg.gifs)).2)
          (fun s => rfl) _ p) name
    · exact ⟨rfl, rfl⟩
  have e4 : reactionsOf p4 name = reactionsOf p3 name ∧
      intReactionsOf p4 name (get_correct_interval msg.timestamp mode)
        = intReactionsOf p3 name (get_correct_interval msg.timestamp mode) := by
    rcases gate_some h4 with h4' | rfl
    · unfold handle_videos at h4'
      exact react_pres_modifyA h4' (fun p => rfl)
        (fun p => bumpBoth_react_at (videoBump msg.videos.length) (fun s => rfl) _ p) name
    · exact ⟨rfl, rfl⟩
  have hne : msg.reactions.isEmpty = false := by
    cases hrr : msg.reactions with
    | nil => exact absurd hrr hr
    | cons a l => rfl
  rw [hne] at h5
  simp only [Bool.not_false, if_true] at h5
  unfold handle_reactions at h5
  have e5 := foldActs_react_count _ msg.reactions p4 p5 h5 name
  have e6 : reactionsOf p6 name = reactionsOf p5 name ∧
      intReactionsOf p6 name (get_correct_interval msg.timestamp mode)
        = intReactionsOf p5 name (get_correct_interval msg.timestamp mode) := by
    rcases gate_some h6 with h6' | rfl
    · unfold handle_links at h6'
      exact react_pres_modifyA h6' (fun p => rfl)
        (fun p => bumpBoth_react_at linkBump (fun s => rfl) _ p) name
    · exact ⟨rfl, rfl⟩
  have hA : reactionsOf t'.participants name
      = reactionsOf table.participants name
        + msg.reactions.countP (fun r => r.actor == name) := by
    rw [ht]
    show reactionsOf p6 name = _
    rw [e6.1, e5.1, e4.1, e3.1, e2.1, e1.1]
  have hI : intReactionsOf t'.participants name (get_correct_interval msg.timestamp mode)
      = intReactionsOf table.participants name (get_correct_interval msg.timestamp mode)
        + msg.reactions.countP (fun r => r.actor == name) := by
    rw [ht]
    show intReactionsOf p6 name _ = _
    rw [e6.2, e5.2, e4.2, e3.2, e2.2, e1.2]
  refine ⟨hA, hI, fun hc => intReactionsOf_pos_isSome ?_⟩
  rw [hI]
  omega

/-- Witness for C2: a message from Alice with a single reaction by Bob,
folded into the fresh two-participant hourly table, adds one to Bob's
counters. -/
theorem C2_reaction_attribution_witness :
    reactionsOf c2Table.participants "Bob"
        = reactionsOf tblAB.participants "Bob"
          + msgReact.reactions.countP (fun r => r.actor == "Bob") ∧
    intReactionsOf c2Table.participants "Bob"
        (get_correct_interval msgReact.timestamp Interval.hourly)
        = intReactionsOf tblAB.participants "Bob"
            (get_correct_interval msgReact.timestamp Interval.hourly)
          + msgReact.reactions.countP (fun r => r.actor == "Bob") ∧
    (msgReact.reactions.countP (fun r => r.actor == "Bob") ≠ 0 →
      ((lookupA c2Table.participants "Bob").bind
        (fun p => lookupA p.int
          (get_correct_interval msgReact.timestamp Interval.hourly))).isSome = true) :=
  C2_reaction_attribution noEmoji Interval.hourly tblAB msgReact c2Table "Bob"
    (by decide) rfl

/-- Witness for C5 at the concrete one-event hourly run. -/
theorem C5_totals_consistency_witness :
    msgsSumInv c5Table.participants ∧
    (∀ (table : StatsTable) (msg : Msg) (t2 : StatsTable),
      msgsSumInv table.participants → foldStep noEmoji Interval.hourly table msg = some t2 →
      msgsSumInv t2.participants) :=
  C5_totals_consistency noEmoji Interval.hourly ["Alice"] [msgHi] c5Table rfl

theorem pair_pres_modifyA {m m' : Parts} {nm : String}
    {f : ParticipantStats → ParticipantStats} (h : modifyA m nm f = some m')
    (hg : ∀ p, (f p).general.msgs_sent = p.general.msgs_sent ∧
               (f p).general.avg_msg_len = p.general.avg_msg_len) (name : String) :
    msgsOf m' name = msgsOf m name ∧ lenOf m' name = lenOf m name := by
  constructor
  · unfold msgsOf
    rw [map_proj_modifyA (fun p => p.general.msgs_sent) h (fun p => (hg p).1) name]
  · unfold lenOf
    rw [map_proj_modifyA (fun p => p.general.avg_msg_len) h (fun p => (hg p).2) name]

theorem pair_pres_foldActs {k : IntervalKey} :
    ∀ (rs : List Reaction) (st st' : Parts), foldActs k rs st = some st' → ∀ name,
      msgsOf st' name = msgsOf st name ∧ lenOf st' name = lenOf st name := by
  intro rs st st' h name
  constructor
  · unfold msgsOf
    rw [map_proj_foldActs (fun p => p.general.msgs_sent)
        (fun p => by simp [reactionUpd_general_eq, reactionBump]) rs st st' h name]
  · unfold lenOf
    rw [map_proj_foldActs (fun p => p.general.avg_msg_len)
        (fun p => by simp [reactionUpd_general_eq, reactionBump]) rs st st' h name]

theorem content_msgs_len (isEmoji : Char → Bool) (k : IntervalKey) (msg : Msg)
    {p1 p2 : Parts} (h : handle_content isEmoji k msg p1 = some p2) (name : String) :
    msgsOf p2 name = msgsOf p1 name + (if msg.sender_name == name then 1 else 0) ∧
    lenOf p2 name = lenOf p1 name
        + (if msg.sender_name == name then ((msg.content.getD "").length : Rat) else 0) := by
  unfold handle_content at h
  by_cases hn : name = msg.sender_name
  · subst hn
    have hsome := modifyA_isSome_of_some h
    obtain ⟨v, hv⟩ := Option.isSome_iff_exists.mp hsome
    have hstep : lookupA p2 msg.sender_name
        = some (bumpBoth k
            (contentBump (msg.content.getD "").length
              (count_emoji isEmoji (msg.content.getD "").data)) v) := by
      rw [lookupA_modifyA_self h, hv]
      rfl
    constructor
    · unfold msgsOf
      rw [hstep, hv]
      simp [bumpBoth, contentBump]
    · unfold lenOf
      rw [hstep, hv]
      simp [bumpBoth, contentBump]
  · have hb : (msg.sender_name == name) = false := by
      simp
      exact fun he => hn he.symm
    have hlook := lookupA_modifyA_other h hn
    constructor
    · unfold msgsOf
      rw [hlook]
      simp [hb]
    · unfold lenOf
      rw [hlook]
      simp [hb]

theorem foldStep_msgs_len {isEmoji : Char → Bool} {mode : Interval} {table : StatsTable}
    {msg : Msg} {t' : StatsTable} (h : foldStep isEmoji mode table msg = some t')
    (name : String) :
    msgsOf t'.participants name
      = msgsOf table.participants name
        + (if msg.sender_name == name && hasContent msg then 1 else 0) ∧
    lenOf t'.participants name
      = lenOf table.participants name
        + (if msg.sender_name == name && hasContent msg
           then ((msg.content.getD "").length : Rat) else 0) := by
  obtain ⟨p1, p2, p3, p4, p5, p6, h1, h2, h3, h4, h5, h6, ht⟩ := foldStep_elim h
  have e1 := pair_pres_modifyA h1
    (fun p => ⟨by rw [ensureInterval_general], by rw [ensureInterval_general]⟩) name
  have e3 : msgsOf p3 name = msgsOf p2 name ∧ lenOf p3 name = lenOf p2 name := by
    rcases gate_some h3 with h3' | rfl
    · unfold handle_photos_and_gifs at h3'
      exact pair_pres_modifyA h3' (fun p => ⟨rfl, rfl⟩) name
    · exact ⟨rfl, rfl⟩
  have e4 : msgsOf p4 name = msgsOf p3 name ∧ lenOf p4 name = lenOf p3 name := by
    rcases gate_some h4 with h4' | rfl
    · unfold handle_videos at h4'
      exact pair_pres_modifyA h4' (fun p => ⟨rfl, rfl⟩) name
    · exact ⟨rfl, rfl⟩
  have e5 : msgsOf p5 name = msgsOf p4 name ∧ lenOf p5 name = lenOf p4 name := by
    rcases gate_some h5 with h5' | rfl
    · unfold handle_reactions at h5'
      exact pair_pres_foldActs msg.reactions p4 p5 h5' name
    · exact ⟨rfl, rfl⟩
  have e6 : msgsOf p6 name = msgsOf p5 name ∧ lenOf p6 name = lenOf p5 name := by
    rcases gate_some h6 with h6' | rfl
    · unfold handle_links at h6'
      exact pair_pres_modifyA h6' (fun p => ⟨rfl, rfl⟩) name
    · exact ⟨rfl, rfl⟩
  cases hc : hasContent msg with
  | false =>
    rw [hc] at h2
    simp at h2
    subst h2
    constructor
    · rw [ht]
      show msgsOf p6 name = _
      rw [e6.1, e5.1, e4.1, e3.1, e1.1]
      simp [hc]
    · rw [ht]
      show lenOf p6 name = _
      rw [e6.2, e5.2, e4.2, e3.2, e1.2]
      simp [hc]
  | true =>
    rw [hc] at h2
    rw [if_pos rfl] at h2
    have e2 := content_msgs_len isEmoji _ msg h2 name
    constructor
    · rw [ht]
      show msgsOf p6 name = _
      rw [e6.1, e5.1, e4.1, e3.1, e2.1, e1.1]
      simp [hc]
    · rw [ht]
      show lenOf p6 name = _
      rw [e6.2, e5.2, e4.2, e3.2, e2.2, e1.2]
      simp [hc]

theorem foldMessages_msgs_len {isEmoji : Char → Bool} {mode : Interval} :
    ∀ (msgs : List Msg) (table t : StatsTable),
      foldMessages isEmoji mode table msgs = some t → ∀ name,
      msgsOf t.participants name
          = msgsOf table.participants name + senderTextCount msgs name ∧
      lenOf t.participants name
          = lenOf table.participants name + (senderLenSum msgs name : Rat) := by
  intro msgs
  induction msgs with
  | nil =>
    intro table t h name
    simp [foldMessages] at h
    subst h
    simp [senderTextCount, senderLenSum]
  | cons m ms ih =>
    intro table t h name
    simp only [foldMessages] at h
    cases hs : foldStep isEmoji mode table m with
    | none => simp [hs] at h
    | some t2 =>
      simp only [hs] at h
      obtain ⟨sm, sl⟩ := foldStep_msgs_len hs name
      obtain ⟨im, il⟩ := ih t2 t h name
      have hcons : senderLenSum (m :: ms) name
          = (if m.sender_name == name && hasContent m
             then (m.content.getD "").length else 0) + senderLenSum ms name := by
        simp [senderLenSum]
      constructor
      · rw [im, sm]
        unfold senderTextCount
        rw [List.countP_cons]
        omega
      · rw [il, sl, hcons]
        cases hcond : (m.sender_name == name && hasContent m) with
        | false =>
          simp only [hcond, Bool.false_eq_true, if_false]
          push_cast
          ring
        | true =>
          simp only [hcond, if_true]
          push_cast
          ring

theorem msgsOf_init (mode : Interval) (ps : List String) (name : String) :
    msgsOf (initStats mode ps).participants name = 0 ∧
    lenOf (initStats mode ps).participants name = 0 := by
  unfold msgsOf lenOf
  cases h : lookupA (initStats mode ps).participants name with
  | none => simp
  | some p =>
    have hp := initStats_lookup mode ps name p h
    rw [hp]
    simp [create_stats, _create_stats]

theorem normalizeParts_elim :
    ∀ {m m' : Parts}, normalizeParts m = some m' →
      m' = m.map (fun e => (e.1, normalizeP e.2)) ∧
      ∀ e ∈ m, e.2.general.msgs_sent ≠ 0 := by
  intro m
  induction m with
  | nil =>
    intro m' h
    simp [normalizeParts] at h
    subst h
    exact ⟨rfl, by simp⟩
  | cons e rest ih =>
    intro m' h
    simp only [normalizeParts] at h
    cases hn : normalizeParticipant e.2 with
    | none => simp [hn] at h
    | some q =>
      simp only [hn] at h
      cases hr : normalizeParts rest with
      | none => simp [hr] at h
      | some rest2 =>
        simp only [hr] at h
        obtain ⟨hmap, hall⟩ := ih hr
        have hm' := Option.some.inj h
        unfold normalizeParticipant at hn
        by_cases hz : e.2.general.msgs_sent = 0
        · rw [if_pos hz] at hn
          cases hn
        · rw [if_neg hz] at hn
          have hq : q = normalizeP e.2 := (Option.some.inj hn).symm
          constructor
          · rw [← hm', hq, hmap]
            simp
          · intro x hx
            rcases List.mem_cons.mp hx with rfl | hx2
            · exact hz
            · exact hall x hx2

theorem normalizeTable_elim {t t' : StatsTable} (h : normalizeTable t = some t') :
    t'.participants = t.participants.map (fun e => (e.1, normalizeP e.2)) ∧
    (∀ e ∈ t.participants, e.2.general.msgs_sent ≠ 0) ∧
    t'.intervals = t.intervals := by
  unfold normalizeTable at h
  cases hp : normalizeParts t.participants with
  | none => simp [hp] at h
  | some ps =>
    rw [hp] at h
    simp only [Option.map_some'] at h
    obtain ⟨hmap, hall⟩ := normalizeParts_elim hp
    have ht := Option.some.inj h
    refine ⟨?_, hall, ?_⟩
    · rw [← ht, ← hmap]
    · rw [← ht]

theorem lookupA_mapVal {κ α : Type} [DecidableEq κ] (hfun : α → α) :
    ∀ (m : List (κ × α)) (k : κ),
      lookupA (m.map (fun e => (e.1, hfun e.2))) k = (lookupA m k).map hfun := by
  intro m
  induction m with
  | nil => intro k; rfl
  | cons e rest ih =>
    intro k
    by_cases hk : e.1 = k
    · simp [lookupA, hk]
    · simp [lookupA, hk, ih]

/-- Claim C7 (confirmed): after a successful fold and averaging pass,
the folded record of every participant holds exactly the count and
the summed length of that participant's text messages; the all-time
average equals length-sum divided by messages-sent (exact rational
division modelling Python's float division), and every
interval-scoped record with positive messages-sent is normalized
independently with its own messages-sent as denominator, records with
zero staying untouched. -/
theorem C7_average_normalization (isEmoji : Char → Bool) (mode : Interval)
    (ps : List String) (msgs : List Msg) (t0 t1 : StatsTable) (name : String)
    (p0 q0 : ParticipantStats)
    (hf : foldMessages isEmoji mode (initStats mode ps) msgs = some t0)
    (hn : normalizeTable t0 = some t1)
    (hp0 : lookupA t0.participants name = some p0)
    (hp1 : lookupA t1.participants name = some q0) :
    (p0.general.msgs_sent = senderTextCount msgs name ∧
     p0.general.avg_msg_len = (senderLenSum msgs name : Rat)) ∧
    (p0.general.msgs_sent ≠ 0 →
      q0.general.avg_msg_len = p0.general.avg_msg_len / (p0.general.msgs_sent : Rat)) ∧
    (senderTextCount msgs name ≠ 0 →
      q0.general.avg_msg_len
        = (senderLenSum msgs name : Rat) / (senderTextCount msgs name : Rat)) ∧
    (∀ (k : IntervalKey) (s0 s1 : Stats),
      lookupA p0.int k = some s0 → lookupA q0.int k = some s1 →
      (s0.msgs_sent ≠ 0 →
        s1.avg_msg_len = s0.avg_msg_len / (s0.msgs_sent : Rat) ∧
        s1.msgs_sent = s0.msgs_sent) ∧
      (s0.msgs_sent = 0 → s1 = s0)) := by
  obtain ⟨fm, fl⟩ := foldMessages_msgs_len msgs (initStats mode ps) t0 hf name
  obtain ⟨zm, zl⟩ := msgsOf_init mode ps name
  have hm0 : msgsOf t0.participants name = p0.general.msgs_sent := by
    unfold msgsOf
    rw [hp0]
    rfl
  have hl0 : lenOf t0.participants name = p0.general.avg_msg_len := by
    unfold lenOf
    rw [hp0]
    rfl
  have hA1 : p0.general.msgs_sent = senderTextCount msgs name := by
    rw [← hm0, fm, zm]
    omega
  have hA2 : p0.general.avg_msg_len = (senderLenSum msgs name : Rat) := by
    rw [← hl0, fl, zl]
    ring
  obtain ⟨hmap, hall, hints⟩ := normalizeTable_elim hn
  have hp1' : lookupA t1.participants name = some (normalizeP p0) := by
    rw [hmap, lookupA_mapVal normalizeP t0.participants name, hp0]
    rfl
  have hq : q0 = normalizeP p0 := by
    rw [hp1] at hp1'
    exact Option.some.inj hp1'
  refine ⟨⟨hA1, hA2⟩, ?_, ?_, ?_⟩
  · intro hz
    rw [hq]
    rfl
  · intro hcount
    rw [hq]
    show p0.general.avg_msg_len / (p0.general.msgs_sent : Rat) = _
    rw [hA1, hA2]
  · intro k s0 s1 hs0 hs1
    have hint : q0.int = p0.int.map (fun e => (e.1, normalizeInt e.2)) := by
      rw [hq]
      rfl
    rw [hint, lookupA_mapVal normalizeInt p0.int k, hs0] at hs1
    have hs : s1 = normalizeInt s0 := (Option.some.inj hs1).symm
    constructor
    · intro hz
      rw [hs]
      unfold normalizeInt
      rw [if_pos (Nat.pos_of_ne_zero hz)]
      exact ⟨rfl, rfl⟩
    · intro hz
      rw [hs]
      unfold normalizeInt
      rw [if_neg (by omega)]

/-- Witness for C7: two events of Alice in the same hour with content
lengths 4 and 6; the theorem instantiated here forces interval
average 5 and all-time average 5. -/
theorem C7_average_normalization_witness :
    (c7P0.general.msgs_sent = senderTextCount c7Msgs "Alice" ∧
     c7P0.general.avg_msg_len = (senderLenSum c7Msgs "Alice" : Rat)) ∧
    (c7P0.general.msgs_sent ≠ 0 →
      c7P1.general.avg_msg_len
        = c7P0.general.avg_msg_len / (c7P0.general.msgs_sent : Rat)) ∧
    (senderTextCount c7Msgs "Alice" ≠ 0 →
      c7P1.general.avg_msg_len
        = (senderLenSum c7Msgs "Alice" : Rat) / (senderTextCount c7Msgs "Alice" : Rat)) ∧
    (∀ (k : IntervalKey) (s0 s1 : Stats),
      lookupA c7P0.int k = some s0 → lookupA c7P1.int k = some s1 →
      (s0.msgs_sent ≠ 0 →
        s1.avg_msg_len = s0.avg_msg_len / (s0.msgs_sent : Rat) ∧
        s1.msgs_sent = s0.msgs_sent) ∧
      (s0.msgs_sent = 0 → s1 = s0)) :=
  C7_average_normalization noEmoji Interval.hourly ["Alice"] c7Msgs c7T0 c7T1 "Alice"
    c7P0 c7P1 rfl rfl rfl rfl

end FBMsg
